import Mathlib

/-!
Shallow embedding of `visage` (bryanmccarthy/visage, src/main.go) in Lean 4,
together with theorems settling the frozen claims about its specification.

Conventions of the embedding:
* Go `int` is modelled by `Int` (no overflow is relevant to any claim: all
  quantities are small screen/pixel coordinates).
* An `ebiten.Image` is modelled by its bounds and a pixel function
  (`Image`); `image.Set` is a pointwise functional update.
* Go slice indexing / slicing that panics out of range is modelled by
  `Option`: a function returns `none` exactly where the Go code panics.
* The mutable `Game` struct is modelled by a `Game` record; each Go method
  becomes a function `Game → ... → Game` (or `Option Game` where it can
  panic).
-/

/-- RGBA pixel, one byte per channel (values are irrelevant to the claims,
only equality with zero matters). -/
structure RGBA where
  r : Nat
  g : Nat
  b : Nat
  a : Nat
  deriving DecidableEq, Repr

/-- The fully transparent pixel `color.RGBA{0,0,0,0}` written by the eraser. -/
def zeroRGBA : RGBA := ⟨0, 0, 0, 0⟩

/-- Model of an `*ebiten.Image`: its bounds (`Bounds().Dx()/Dy()`) and its
pixel contents as a total function (pixels outside bounds are irrelevant). -/
structure Image where
  width : Int
  height : Int
  pix : Int × Int → RGBA

/-- `img.Set(ex, ey, c)`: pointwise update of one pixel. -/
def Image.set (img : Image) (ex ey : Int) (c : RGBA) : Image :=
  { img with pix := fun q => if q = (ex, ey) then c else img.pix q }

/-- The inclusive integer range `lo, lo+1, ..., hi` (empty when `hi < lo`),
modelling a Go `for v := lo; v <= hi; v++` loop's sequence of values. -/
def intRange (lo hi : Int) : List Int :=
  (List.range (hi - lo + 1).toNat).map (fun (i : Nat) => lo + (i : Int))

theorem mem_intRange {lo hi a : Int} : a ∈ intRange lo hi ↔ lo ≤ a ∧ a ≤ hi := by
  constructor
  · intro h
    obtain ⟨i, hmem, heq⟩ := List.mem_map.mp h
    rw [List.mem_range] at hmem
    omega
  · intro h
    refine List.mem_map.mpr ⟨(a - lo).toNat, ?_, ?_⟩
    · rw [List.mem_range]
      omega
    · omega

/-- One iteration of the inner body of `erasePixels`: for offset `(dx, dy)`
from the centre `(px, py)`, erase the pixel if it is inside the disc of
radius² `rsq` and inside the bounds `w × h` read before the loop. -/
def eraseAtOffset (w h rsq px py : Int) (dx dy : Int) (img : Image) : Image :=
  if dx * dx + dy * dy ≤ rsq then
    let ex := px + dx
    let ey := py + dy
    if ex ≥ 0 ∧ ey ≥ 0 ∧ ex < w ∧ ey < h then
      img.set ex ey zeroRGBA
    else img
  else img

/-- `(*Game).erasePixels` specialised to the slider value `r`
(`g.sliderValue`): the nested `for dx`/`for dy` loops over `[-r, r]`,
erasing every in-bounds pixel of the disc `dx²+dy² ≤ r²` around `(px,py)`. -/
def erasePixels (r : Int) (img : Image) (px py : Int) : Image :=
  let w := img.width
  let h := img.height
  let radiusSquared := r * r
  (intRange (-r) r).foldl
    (fun im dx =>
      (intRange (-r) r).foldl
        (fun im2 dy => eraseAtOffset w h radiusSquared px py dx dy im2) im)
    img

/-- The condition under which `eraseAtOffset` blanks a pixel `q`. -/
def offsetHits (w h rsq px py dx dy : Int) (q : Int × Int) : Prop :=
  dx * dx + dy * dy ≤ rsq ∧ q = (px + dx, py + dy) ∧
    0 ≤ q.1 ∧ 0 ≤ q.2 ∧ q.1 < w ∧ q.2 < h

instance (w h rsq px py dx dy : Int) (q : Int × Int) :
    Decidable (offsetHits w h rsq px py dx dy q) := by
  unfold offsetHits; infer_instance

theorem Image.set_pix (img : Image) (ex ey : Int) (c : RGBA) (q : Int × Int) :
    (img.set ex ey c).pix q = if q = (ex, ey) then c else img.pix q := rfl

theorem eraseAtOffset_width (w h rsq px py dx dy : Int) (img : Image) :
    (eraseAtOffset w h rsq px py dx dy img).width = img.width := by
  unfold eraseAtOffset
  by_cases hd : dx * dx + dy * dy ≤ rsq
  · rw [if_pos hd]
    dsimp only
    by_cases hb : px + dx ≥ 0 ∧ py + dy ≥ 0 ∧ px + dx < w ∧ py + dy < h
    · rw [if_pos hb]; rfl
    · rw [if_neg hb]
  · rw [if_neg hd]

theorem eraseAtOffset_height (w h rsq px py dx dy : Int) (img : Image) :
    (eraseAtOffset w h rsq px py dx dy img).height = img.height := by
  unfold eraseAtOffset
  by_cases hd : dx * dx + dy * dy ≤ rsq
  · rw [if_pos hd]
    dsimp only
    by_cases hb : px + dx ≥ 0 ∧ py + dy ≥ 0 ∧ px + dx < w ∧ py + dy < h
    · rw [if_pos hb]; rfl
    · rw [if_neg hb]
  · rw [if_neg hd]

theorem eraseAtOffset_pix (w h rsq px py dx dy : Int) (img : Image) (q : Int × Int) :
    (eraseAtOffset w h rsq px py dx dy img).pix q =
      if offsetHits w h rsq px py dx dy q then zeroRGBA else img.pix q := by
  unfold eraseAtOffset
  by_cases hd : dx * dx + dy * dy ≤ rsq
  · rw [if_pos hd]
    dsimp only
    by_cases hb : px + dx ≥ 0 ∧ py + dy ≥ 0 ∧ px + dx < w ∧ py + dy < h
    · rw [if_pos hb, Image.set_pix]
      by_cases hq : q = (px + dx, py + dy)
      · rw [if_pos hq, if_pos]
        subst hq
        exact ⟨hd, rfl, hb.1, hb.2.1, hb.2.2.1, hb.2.2.2⟩
      · rw [if_neg hq, if_neg]
        rintro ⟨-, hcontra, -⟩
        exact hq hcontra
    · rw [if_neg hb, if_neg]
      rintro ⟨-, hq, h1, h2, h3, h4⟩
      subst hq
      exact hb ⟨h1, h2, h3, h4⟩
  · rw [if_neg hd, if_neg]
    rintro ⟨hcontra, -⟩
    exact hd hcontra

/-- Folding a step that blanks pixels on a condition independent of the
running image: the result at `q` is zero when some list element hits `q`,
and the original pixel otherwise. -/
theorem foldl_erase_pix {α : Type} (step : α → Image → Image)
    (C : α → Int × Int → Prop) [∀ a q, Decidable (C a q)]
    (hstep : ∀ a img q, (step a img).pix q = if C a q then zeroRGBA else img.pix q)
    (l : List α) (img : Image) (q : Int × Int) :
    (l.foldl (fun im a => step a im) img).pix q =
      if ∃ a ∈ l, C a q then zeroRGBA else img.pix q := by
  induction l generalizing img with
  | nil => simp
  | cons a t ih =>
    simp only [List.foldl_cons]
    rw [ih]
    by_cases ht : ∃ b ∈ t, C b q
    · rw [if_pos ht, if_pos]
      obtain ⟨b, hb, hbc⟩ := ht
      exact ⟨b, List.mem_cons_of_mem a hb, hbc⟩
    · rw [if_neg ht, hstep]
      by_cases ha : C a q
      · rw [if_pos ha, if_pos]
        exact ⟨a, List.mem_cons_self a t, ha⟩
      · rw [if_neg ha, if_neg]
        rintro ⟨b, hb, hbc⟩
        rcases List.mem_cons.mp hb with rfl | hb
        · exact ha hbc
        · exact ht ⟨b, hb, hbc⟩

theorem foldl_erase_width {α : Type} (step : α → Image → Image)
    (hstep : ∀ a img, (step a img).width = img.width)
    (l : List α) (img : Image) :
    (l.foldl (fun im a => step a im) img).width = img.width := by
  induction l generalizing img with
  | nil => rfl
  | cons a t ih => simp only [List.foldl_cons]; rw [ih, hstep]

theorem foldl_erase_height {α : Type} (step : α → Image → Image)
    (hstep : ∀ a img, (step a img).height = img.height)
    (l : List α) (img : Image) :
    (l.foldl (fun im a => step a im) img).height = img.height := by
  induction l generalizing img with
  | nil => rfl
  | cons a t ih => simp only [List.foldl_cons]; rw [ih, hstep]

theorem erasePixels_width (r : Int) (img : Image) (px py : Int) :
    (erasePixels r img px py).width = img.width := by
  unfold erasePixels
  exact foldl_erase_width _
    (fun dx im => foldl_erase_width _ (fun dy im2 => eraseAtOffset_width _ _ _ _ _ _ _ _) _ _) _ _

theorem erasePixels_height (r : Int) (img : Image) (px py : Int) :
    (erasePixels r img px py).height = img.height := by
  unfold erasePixels
  exact foldl_erase_height _
    (fun dx im => foldl_erase_height _ (fun dy im2 => eraseAtOffset_height _ _ _ _ _ _ _ _) _ _) _ _

/-- Pointwise characterisation of one `erasePixels` call: pixel `q` is
blanked exactly when it lies in the radius-`r` disc around `(px,py)` and
inside the image bounds; every other pixel keeps its value. -/
theorem erasePixels_pix (r : Int) (hr : 0 ≤ r) (img : Image) (px py : Int) (q : Int × Int) :
    (erasePixels r img px py).pix q =
      if (q.1 - px) * (q.1 - px) + (q.2 - py) * (q.2 - py) ≤ r * r ∧
          0 ≤ q.1 ∧ 0 ≤ q.2 ∧ q.1 < img.width ∧ q.2 < img.height
        then zeroRGBA else img.pix q := by
  unfold erasePixels
  rw [foldl_erase_pix
    (fun dx im => (intRange (-r) r).foldl
      (fun im2 dy => eraseAtOffset img.width img.height (r*r) px py dx dy im2) im)
    (fun dx q => ∃ dy ∈ intRange (-r) r, offsetHits img.width img.height (r*r) px py dx dy q)
    (fun dx im q => foldl_erase_pix
      (fun dy im2 => eraseAtOffset img.width img.height (r*r) px py dx dy im2)
      (fun dy q => offsetHits img.width img.height (r*r) px py dx dy q)
      (fun dy im2 q => eraseAtOffset_pix _ _ _ _ _ _ _ _ _) _ im q)]
  obtain ⟨qx, qy⟩ := q
  congr 1
  simp only [eq_iff_iff, offsetHits, Prod.mk.injEq]
  constructor
  · rintro ⟨dx, -, dy, -, hle, ⟨rfl, rfl⟩, h1, h2, h3, h4⟩
    refine ⟨?_, h1, h2, h3, h4⟩
    simp only [add_sub_cancel_left]
    exact hle
  · rintro ⟨hle, h1, h2, h3, h4⟩
    refine ⟨qx - px, ?_, qy - py, ?_, hle, ⟨by omega, by omega⟩, h1, h2, h3, h4⟩
    · rw [mem_intRange]
      constructor <;> nlinarith
    · rw [mem_intRange]
      constructor <;> nlinarith

/-! ## Data model: `Visage`, `Game` and constants (src/main.go) -/

/-- `type Visage struct { x, y, w, h int; image *ebiten.Image }`. -/
structure Visage where
  x : Int
  y : Int
  w : Int
  h : Int
  image : Image

instance : Inhabited Image := ⟨⟨0, 0, fun _ => zeroRGBA⟩⟩
instance : Inhabited Visage := ⟨⟨0, 0, 0, 0, default⟩⟩

/-- The mutable `Game` struct.  `err` models the `error` slot as an optional
message; `selectedIndex` is modelled as `Nat` (every value the Go code ever
assigns to it — `0`, a loop index, `len-1` after an append — is
non-negative). -/
structure Game where
  visages : List Visage
  err : Option String
  selected : Bool
  selectedIndex : Nat
  dragging : Bool
  dragOffsetX : Int
  dragOffsetY : Int
  resizing : Bool
  resizeHandle : Nat
  panning : Bool
  panStartX : Int
  panStartY : Int
  clicking : Bool
  erasing : Bool
  sliderDragging : Bool
  sliderValue : Int

def handleArea : Int := 8
def handleNone : Nat := 0
def handleTopLeft : Nat := 1
def handleTopRight : Nat := 2
def handleBottomLeft : Nat := 3
def handleBottomRight : Nat := 4
def buttonSize : Int := 30
def sliderMin : Int := 5
def sliderMax : Int := 145
def sliderWidth : Int := 150
def sliderHeight : Int := 8
def sliderYOffset : Int := 18

/-! ## Error box (`handleErrors`, `handleDroppedFiles`'s error write, `Update`) -/

/-- `(*Game).handleErrors`: reads the error slot under the lock and returns
its contents (the stored error, or nil). -/
def handleErrors (g : Game) : Option String := g.err

/-- The error write in `handleDroppedFiles`'s goroutine:
`if g.err == nil { g.err = err }` — only the first error is kept. -/
def storeError (g : Game) (e : String) : Game :=
  if g.err = none then { g with err := some e } else g

/-- The asynchronous append in `handleDroppedFiles`: a successfully decoded
image is wrapped in a visage at (40, 40) with `w`,`h` the image bounds and
appended to the collection. -/
def appendDecoded (g : Game) (img : Image) : Game :=
  { g with visages := g.visages ++ [⟨40, 40, img.width, img.height, img⟩] }

/-- The error value `(*Game).Update` returns to ebiten each frame: the Go
code invokes `g.handleErrors()` as a bare statement, discarding its result,
and unconditionally ends with `return nil`. -/
def updateReturnedError (g : Game) : Option String :=
  let _ := handleErrors g
  none

/-! ## Slider, pixel mapping and erasing -/

/-- `(*Game).updateSliderValue`: assign, then clamp into `[sliderMin, sliderMax]`. -/
def updateSliderValue (g : Game) (value : Int) : Game :=
  let s := value
  let s := if s < sliderMin then sliderMin else if s > sliderMax then sliderMax else s
  { g with sliderValue := s }

/-- `(*Game).getPixelCoordinates`: maps a screen point into surface pixel
coordinates of `v`.  Go computes `int(float64(x-v.x) * (Dx / w))` in
`float64`; the claims never depend on the rounded value, only on the
divisors `v.w`, `v.h`, so the quotient is modelled with integer division. -/
def getPixelCoordinates (v : Visage) (x y : Int) : Int × Int :=
  ((x - v.x) * v.image.width / v.w, (y - v.y) * v.image.height / v.h)

/-- The slider-drag block at the top of `handleErasing`: inside the
slider's expanded hit band, begin a slider drag and update the radius. -/
def eraseSliderStep (g : Game) (v : Visage) (x y : Int) : Game :=
  let sliderMouseOffset : Int := 14
  if x ≥ v.x + (v.w / 2) - (sliderWidth / 2) - sliderMouseOffset ∧
     x ≤ v.x + (v.w / 2) - (sliderWidth / 2) + sliderWidth + sliderMouseOffset ∧
     y ≥ v.y + v.h + sliderYOffset - sliderMouseOffset ∧
     y ≤ v.y + v.h + sliderYOffset + sliderHeight + sliderMouseOffset then
    updateSliderValue ({ g with sliderDragging := true })
      (x - (v.x + (v.w / 2) - (sliderWidth / 2)))
  else g

/-- `(*Game).handleErasing`: reads `&g.visages[g.selectedIndex]` (`none` if
that indexing would panic), possibly starts a slider drag and updates the
slider value, then erases a disc of the (updated) slider radius at the
mapped pixel position.  No interpolation with any previous sample occurs. -/
def handleErasing (g : Game) (x y : Int) : Option Game :=
  match g.visages[g.selectedIndex]? with
  | none => none
  | some v =>
    let g1 := eraseSliderStep g v x y
    let p := getPixelCoordinates v x y
    let v1 := { v with image := erasePixels g1.sliderValue v.image p.1 p.2 }
    some { g1 with visages := g1.visages.set g.selectedIndex v1 }

/-! ## Hit-testing, dragging, resizing, panning -/

/-- The containment test of `checkVisageDrag`:
`x >= v.x && x <= v.x+v.w && y >= v.y && y <= v.y+v.h`. -/
def inRect (v : Visage) (x y : Int) : Bool :=
  x ≥ v.x && x ≤ v.x + v.w && y ≥ v.y && y ≤ v.y + v.h

/-- Containment at index `i` of the list (false out of range; the Go loop
only evaluates it in range). -/
def containsAt (vs : List Visage) (i : Nat) (x y : Int) : Bool :=
  match vs[i]? with
  | some v => inRect v x y
  | none => false

/-- The loop `for i := len-1; i >= 0; i--` of `checkVisageDrag`, started at
index `i`: first index from the top whose rectangle contains the point. -/
def hitFrom (vs : List Visage) (x y : Int) : Nat → Option Nat
  | 0 => if containsAt vs 0 x y then some 0 else none
  | i + 1 => if containsAt vs (i + 1) x y then some (i + 1) else hitFrom vs x y i

/-- Front-most-first hit-test over the whole collection. -/
def hitIndex (vs : List Visage) (x y : Int) : Option Nat :=
  if vs.length = 0 then none else hitFrom vs x y (vs.length - 1)

/-- `(*Game).checkVisageDrag`: on a hit begins dragging and selects the hit
visage with its grab offset; after the loop, `if !g.dragging { g.selected =
false }`. -/
def checkVisageDrag (g : Game) (x y : Int) : Game :=
  match hitIndex g.visages x y with
  | some i =>
    let v := g.visages.getD i default
    { g with dragging := true, selected := true, selectedIndex := i,
             dragOffsetX := x - v.x, dragOffsetY := y - v.y }
  | none => if g.dragging then g else { g with selected := false }

/-- `(*Game).dragSelectedVisage` (`none` where Go would panic on the index). -/
def dragSelectedVisage (g : Game) (x y : Int) : Option Game :=
  match g.visages[g.selectedIndex]? with
  | none => none
  | some v =>
    let v1 := { v with x := x - g.dragOffsetX, y := y - g.dragOffsetY }
    some { g with visages := g.visages.set g.selectedIndex v1 }

/-- The `switch g.resizeHandle` of `resizeSelectedVisage`: per-handle
geometry update against the live rectangle. -/
def resizeGeom (handle : Nat) (v : Visage) (x y : Int) : Visage :=
  if handle = handleTopLeft then
    { v with w := v.w + (v.x - x), h := v.h + (v.y - y), x := x, y := y }
  else if handle = handleTopRight then
    { v with w := x - v.x, h := v.h + (v.y - y), y := y }
  else if handle = handleBottomLeft then
    { v with w := v.w + (v.x - x), h := y - v.y, x := x }
  else if handle = handleBottomRight then
    { v with w := x - v.x, h := y - v.y }
  else v

/-- `if v.w < 1 { v.w = 1 }` at the end of `resizeSelectedVisage`. -/
def clampMinW (v : Visage) : Visage := if v.w < 1 then { v with w := 1 } else v

/-- `if v.h < 1 { v.h = 1 }` at the end of `resizeSelectedVisage`. -/
def clampMinH (v : Visage) : Visage := if v.h < 1 then { v with h := 1 } else v

/-- `(*Game).resizeSelectedVisage`: per-handle geometry update against the
live rectangle, then both dimensions are clamped so that `w ≥ 1` and
`h ≥ 1` before the frame's state is stored. -/
def resizeSelectedVisage (g : Game) (x y : Int) : Option Game :=
  match g.visages[g.selectedIndex]? with
  | none => none
  | some v =>
    let v3 := clampMinH (clampMinW (resizeGeom g.resizeHandle v x y))
    some { g with visages := g.visages.set g.selectedIndex v3 }

/-- `(*Game).resetActions`: run on every frame in which neither mouse button
is pressed (gesture release).  It only clears gesture flags: no geometry or
surface change of any kind happens on release. -/
def resetActions (g : Game) : Game :=
  { g with dragging := false, resizing := false, clicking := false,
           panning := false, sliderDragging := false, resizeHandle := handleNone }

/-- `(*Game).handlePanning`: incremental per-frame translation of every
visage by the delta from the previous frame's point. -/
def handlePanning (g : Game) (x y : Int) : Game :=
  if !g.panning then
    { g with panStartX := x, panStartY := y, panning := true }
  else
    let dx := x - g.panStartX
    let dy := y - g.panStartY
    { g with visages := g.visages.map (fun v => { v with x := v.x + dx, y := v.y + dy }),
             panStartX := x, panStartY := y }

/-- `(*Game).checkResizeHandles`: an 8-px square around each corner of the
selected visage enters the resizing state with that handle. -/
def checkResizeHandles (g : Game) (x y : Int) : Option Game :=
  match g.visages[g.selectedIndex]? with
  | none => none
  | some v =>
    some <|
      if x ≥ v.x - handleArea ∧ x ≤ v.x + handleArea ∧
         y ≥ v.y - handleArea ∧ y ≤ v.y + handleArea then
        { g with resizing := true, resizeHandle := handleTopLeft }
      else if x ≥ v.x + v.w - handleArea ∧ x ≤ v.x + v.w + handleArea ∧
              y ≥ v.y - handleArea ∧ y ≤ v.y + handleArea then
        { g with resizing := true, resizeHandle := handleTopRight }
      else if x ≥ v.x - handleArea ∧ x ≤ v.x + handleArea ∧
              y ≥ v.y + v.h - handleArea ∧ y ≤ v.y + v.h + handleArea then
        { g with resizing := true, resizeHandle := handleBottomLeft }
      else if x ≥ v.x + v.w - handleArea ∧ x ≤ v.x + v.w + handleArea ∧
              y ≥ v.y + v.h - handleArea ∧ y ≤ v.y + v.h + handleArea then
        { g with resizing := true, resizeHandle := handleBottomRight }
      else g

/-! ## Surface transforms and the six command actions (`g.buttons` in `main`) -/

/-- Horizontal mirror: models drawing the surface onto a fresh image of the
same bounds under `GeoM.Scale(-1,1); GeoM.Translate(Dx,0)`. -/
def flipH (img : Image) : Image :=
  ⟨img.width, img.height, fun q => img.pix (img.width - 1 - q.1, q.2)⟩

/-- 90° clockwise rotation: models drawing onto a fresh `Dy × Dx` image
under translate-to-centre, `Rotate(π/2)`, translate-back. -/
def rotate90 (img : Image) : Image :=
  ⟨img.height, img.width, fun q => img.pix (q.2, img.height - 1 - q.1)⟩

/-- Button 0 (`move.png`): front-most selection goes to the back, any other
selection goes to the front.  The element is read at the `selectedIndex`
argument; the comparison and the slices use the field `g.selectedIndex`,
exactly as in the Go closure. -/
def moveAction (selectedIndex : Nat) (g : Game) : Option Game :=
  match g.visages[selectedIndex]? with
  | none => none
  | some visage =>
    if g.selectedIndex = g.visages.length - 1 then
      some { g with visages := visage :: g.visages.take g.selectedIndex,
                    selectedIndex := 0 }
    else if g.visages.length < g.selectedIndex + 1 then
      none
    else
      let l := (g.visages.take g.selectedIndex ++ g.visages.drop (g.selectedIndex + 1)) ++ [visage]
      some { g with visages := l, selectedIndex := l.length - 1 }

/-- Button 1 (`flip.png`): replace the selected visage's surface by its
horizontal mirror; geometry untouched. -/
def flipAction (selectedIndex : Nat) (g : Game) : Option Game :=
  match g.visages[selectedIndex]? with
  | none => none
  | some visage =>
    let v1 := { visage with image := flipH visage.image }
    some { g with visages := g.visages.set selectedIndex v1 }

/-- Button 2 (`rotate.png`): rotate the surface 90° and adopt the rotated
surface's bounds as the visage's `w`, `h`. -/
def rotateAction (selectedIndex : Nat) (g : Game) : Option Game :=
  match g.visages[selectedIndex]? with
  | none => none
  | some visage =>
    let rotated := rotate90 visage.image
    let v1 := { visage with image := rotated, w := rotated.width, h := rotated.height }
    some { g with visages := g.visages.set selectedIndex v1 }

/-- Button 3 (`delete.png`): `g.visages = append(g.visages[:i], g.visages[i+1:]...)`,
then unconditionally `selected = false; selectedIndex = 0; erasing = false`.
The slice `g.visages[i+1:]` panics (`none`) when `i ≥ len`. -/
def deleteAction (selectedIndex : Nat) (g : Game) : Option Game :=
  if g.visages.length < selectedIndex + 1 then none
  else
    some { g with visages := g.visages.take selectedIndex ++ g.visages.drop (selectedIndex + 1),
                  selected := false, selectedIndex := 0, erasing := false }

/-- Button 4 (`copy.png`): deep-copy of the surface, inserted at (+30,+30)
from the original, and the new (front-most) element becomes the selection. -/
def copyAction (selectedIndex : Nat) (g : Game) : Option Game :=
  match g.visages[selectedIndex]? with
  | none => none
  | some visage =>
    let newVisage : Visage := ⟨visage.x + 30, visage.y + 30, visage.w, visage.h, visage.image⟩
    let l := g.visages ++ [newVisage]
    some { g with visages := l, selectedIndex := l.length - 1 }

/-- Button 5 (`erase.png`): toggle the erase tool; the index argument is
unused. -/
def eraseToggleAction (_selectedIndex : Nat) (g : Game) : Option Game :=
  some { g with erasing := !g.erasing }

/-- `g.buttons`, reduced to the actions in declaration order. -/
def buttonActions : List (Nat → Game → Option Game) :=
  [moveAction, flipAction, rotateAction, deleteAction, copyAction, eraseToggleAction]

/-- The screen offsets (`xOffset`, `yOffset`) of the six buttons. -/
def buttonOffsets : List (Int × Int) :=
  [(-36, 10), (-36, 46), (-36, 82), (-36, 118), (-36, 154), (-36, 190)]

/-! ## Keybinds and button clicks -/

/-- The five hotkeys of `handleKeybinds`. -/
inductive HKey
  | E
  | F
  | R
  | D
  | C
  deriving DecidableEq, Repr

/-- The binding `keyActions` in `handleKeybinds`. -/
def keyButtonIndex : HKey → Nat
  | .E => 0
  | .F => 1
  | .R => 2
  | .D => 3
  | .C => 4

/-- The dispatch `action(g.selectedIndex)` performed for a hotkey: the bound
button action is invoked with the current `g.selectedIndex`, with no check
that anything is selected. -/
def hotkeyDispatch (k : HKey) (g : Game) : Option Game :=
  match buttonActions[keyButtonIndex k]? with
  | some act => act g.selectedIndex g
  | none => none

/-- One key's iteration of the `handleKeybinds` loop, given the key's
current pressed level and its `pressedKeys` latch; returns the resulting
state (or `none` for a panic) and the new latch value. -/
def handleKeybindsKey (k : HKey) (isPressed wasPressed : Bool) (g : Game) :
    Option Game × Bool :=
  if isPressed then
    (if !wasPressed then hotkeyDispatch k g else some g, true)
  else
    (some g, false)

/-- `(*Game).checkButtonClicks`: reads the selected visage once, then tries
every button's hit box; a hit invokes the button's action with the current
`g.selectedIndex` and sets `clicking`.  There is no erase-tool filter. -/
def checkButtonClicks (g : Game) (x y : Int) : Option Game :=
  match g.visages[g.selectedIndex]? with
  | none => none
  | some v =>
    (buttonOffsets.zip buttonActions).foldl
      (fun og ob =>
        og.bind (fun g1 =>
          if x ≥ v.x + ob.1.1 ∧ x ≤ v.x + ob.1.1 + buttonSize ∧
             y ≥ v.y + ob.1.2 ∧ y ≤ v.y + ob.1.2 + buttonSize then
            (ob.2 g1.selectedIndex g1).map (fun g2 => { g2 with clicking := true })
          else some g1))
      (some g)

/-- `(*Game).handleLeftMouseButton`: gesture classification for a held
primary button. -/
def handleLeftMouseButton (g : Game) (x y : Int) : Option Game :=
  if !g.dragging && !g.resizing then do
    let g1 ←
      if g.selected then do
        let a ← checkResizeHandles g x y
        let b ← if !a.clicking then checkButtonClicks a x y else some a
        if b.erasing then handleErasing b x y else some b
      else pure g
    if !g1.resizing && !g1.clicking && !g1.erasing then
      pure (checkVisageDrag g1 x y)
    else
      pure g1
  else if g.dragging then dragSelectedVisage g x y
  else resizeSelectedVisage g x y

/-! ## Operations and invariants -/

/-- The operations on the interactive state that the claims quantify over:
hit-test selection, drag, resize, pan, erase, each of the six command
actions (invoked with the current `g.selectedIndex`, as both the button and
hotkey paths do), gesture release, and the background ingestion effects
(append of a decoded visage, recording of an error). -/
inductive Op
  | hit (x y : Int)
  | drag (x y : Int)
  | resize (x y : Int)
  | pan (x y : Int)
  | eraseAt (x y : Int)
  | act (i : Nat)
  | release
  | ingest (img : Image)
  | recordError (e : String)

/-- Apply one operation (`none` where the Go code would panic). -/
def applyOp (op : Op) (g : Game) : Option Game :=
  match op with
  | .hit x y => some (checkVisageDrag g x y)
  | .drag x y => dragSelectedVisage g x y
  | .resize x y => resizeSelectedVisage g x y
  | .pan x y => some (handlePanning g x y)
  | .eraseAt x y => handleErasing g x y
  | .act i =>
    match i with
    | 0 => moveAction g.selectedIndex g
    | 1 => flipAction g.selectedIndex g
    | 2 => rotateAction g.selectedIndex g
    | 3 => deleteAction g.selectedIndex g
    | 4 => copyAction g.selectedIndex g
    | 5 => eraseToggleAction g.selectedIndex g
    | _ => none
  | .release => some (resetActions g)
  | .ingest img => some (appendDecoded g img)
  | .recordError e => some (storeError g e)

/-- Selection invariant: `hasSelection ⇒ 0 ≤ selectedIndex < length`. -/
def selInv (g : Game) : Prop :=
  g.selected = true → g.selectedIndex < g.visages.length

instance (g : Game) : Decidable (selInv g) := by
  unfold selInv; infer_instance

/-- A well-sized visage: `w ≥ 1`, `h ≥ 1` and a surface with positive
bounds. -/
def visOK (v : Visage) : Prop :=
  1 ≤ v.w ∧ 1 ≤ v.h ∧ 1 ≤ v.image.width ∧ 1 ≤ v.image.height

instance (v : Visage) : Decidable (visOK v) := by
  unfold visOK; infer_instance

/-- Size invariant: every visage in the collection is well-sized. -/
def sizeInv (g : Game) : Prop :=
  ∀ v ∈ g.visages, visOK v

instance (g : Game) : Decidable (sizeInv g) := by
  unfold sizeInv; infer_instance

/-- Side condition on an operation: an ingested (PNG-decoded) image has
positive bounds; every other operation is unconditional. -/
def opOK : Op → Prop
  | .ingest img => 1 ≤ img.width ∧ 1 ≤ img.height
  | _ => True

/-! ## Concrete test fixtures -/

def whitePix : RGBA := ⟨255, 255, 255, 255⟩

/-- An all-white `w × h` surface. -/
def testImage (w h : Int) : Image := ⟨w, h, fun _ => whitePix⟩

/-- A test visage whose surface bounds equal its displayed size. -/
def testVisage (x y w h : Int) : Visage := ⟨x, y, w, h, testImage w h⟩

/-- A fresh `Game` as constructed in `main` (`sliderValue: 30`, everything
else zero), holding the given collection. -/
def baseGame (vs : List Visage) : Game :=
  { visages := vs, err := none, selected := false, selectedIndex := 0,
    dragging := false, dragOffsetX := 0, dragOffsetY := 0, resizing := false,
    resizeHandle := handleNone, panning := false, panStartX := 0, panStartY := 0,
    clicking := false, erasing := false, sliderDragging := false, sliderValue := 30 }

/-! ## C5 — a single erase blanks exactly the in-bounds disc -/

/-- C5: for every surface, centre `(px,py)` and radius `r ≥ 0`, one
`erasePixels` call sets RGBA to zero exactly at the surface pixels with
`dx²+dy² ≤ r²` that lie inside the surface bounds, leaves every other pixel
unchanged, and preserves the surface bounds. -/
theorem c5_erase_disc_exact (r : Int) (hr : 0 ≤ r) (img : Image) (px py : Int) (q : Int × Int) :
    (erasePixels r img px py).width = img.width ∧
    (erasePixels r img px py).height = img.height ∧
    (erasePixels r img px py).pix q =
      (if (q.1 - px) * (q.1 - px) + (q.2 - py) * (q.2 - py) ≤ r * r ∧
           0 ≤ q.1 ∧ 0 ≤ q.2 ∧ q.1 < img.width ∧ q.2 < img.height
         then zeroRGBA else img.pix q) :=
  ⟨erasePixels_width r img px py, erasePixels_height r img px py,
   erasePixels_pix r hr img px py q⟩

theorem c5_erase_witness :
    (erasePixels 1 (testImage 3 3) 1 1).pix (1, 2) = zeroRGBA ∧
    (erasePixels 1 (testImage 3 3) 1 1).pix (0, 0) = whitePix := by
  have h1 := c5_erase_disc_exact 1 (by decide) (testImage 3 3) 1 1 (1, 2)
  have h2 := c5_erase_disc_exact 1 (by decide) (testImage 3 3) 1 1 (0, 0)
  constructor
  · rw [h1.2.2]
    decide
  · rw [h2.2.2]
    decide

/-! ## C4 — erase between two sampled points covers only the endpoint discs -/

/-- C4 counterexample: two consecutive erase samples at `(0,0)` then
`(20,0)` with radius 5 on a 21×1 surface.  The pixel `(10,0)` is the
midpoint of the segment between the two samples (first two conjuncts), lies
inside the bounds, and is within distance 0 ≤ 5 of the segment — yet after
both frames it is still unerased: the code paints endpoint discs only, with
no thick-line interpolation. -/
theorem c4_counterexample :
    (((0 : Int) + 20) / 2 = 10 ∧ ((0 : Int) + 0) / 2 = 0) ∧
    (erasePixels 5 (erasePixels 5 (testImage 21 1) 0 0) 20 0).pix (10, 0) = whitePix := by
  constructor
  · exact ⟨rfl, rfl⟩
  · have h1 := erasePixels_pix 5 (by decide) (testImage 21 1) 0 0 (10, 0)
    have h2 := erasePixels_pix 5 (by decide) (erasePixels 5 (testImage 21 1) 0 0) 20 0 (10, 0)
    rw [h2, erasePixels_width, erasePixels_height]
    rw [if_neg (by decide), h1, if_neg (by decide)]
    rfl

/-- C4 amended: a two-frame erase at samples `p0` then `p1` blanks exactly
the union of the two endpoint discs (clipped to bounds); a pixel within
radius of the segment but outside both discs is left unchanged. -/
theorem c4_two_frame_erase_endpoint_discs_only (r : Int) (hr : 0 ≤ r) (img : Image)
    (p0x p0y p1x p1y : Int) (q : Int × Int) :
    (erasePixels r (erasePixels r img p0x p0y) p1x p1y).pix q =
      (if ((q.1 - p0x) * (q.1 - p0x) + (q.2 - p0y) * (q.2 - p0y) ≤ r * r ∨
            (q.1 - p1x) * (q.1 - p1x) + (q.2 - p1y) * (q.2 - p1y) ≤ r * r) ∧
           0 ≤ q.1 ∧ 0 ≤ q.2 ∧ q.1 < img.width ∧ q.2 < img.height
         then zeroRGBA else img.pix q) := by
  rw [erasePixels_pix r hr _ p1x p1y q, erasePixels_width, erasePixels_height,
      erasePixels_pix r hr img p0x p0y q]
  by_cases hb : 0 ≤ q.1 ∧ 0 ≤ q.2 ∧ q.1 < img.width ∧ q.2 < img.height
  · by_cases hd1 : (q.1 - p1x) * (q.1 - p1x) + (q.2 - p1y) * (q.2 - p1y) ≤ r * r
    · rw [if_pos ⟨hd1, hb.1, hb.2.1, hb.2.2.1, hb.2.2.2⟩,
          if_pos ⟨Or.inr hd1, hb.1, hb.2.1, hb.2.2.1, hb.2.2.2⟩]
    · rw [if_neg (fun hc => hd1 hc.1)]
      by_cases hd0 : (q.1 - p0x) * (q.1 - p0x) + (q.2 - p0y) * (q.2 - p0y) ≤ r * r
      · rw [if_pos ⟨hd0, hb.1, hb.2.1, hb.2.2.1, hb.2.2.2⟩,
            if_pos ⟨Or.inl hd0, hb.1, hb.2.1, hb.2.2.1, hb.2.2.2⟩]
      · rw [if_neg (fun hc => hd0 hc.1), if_neg]
        rintro ⟨hor, -⟩
        rcases hor with hc | hc
        · exact hd0 hc
        · exact hd1 hc
  · rw [if_neg (fun hc => hb ⟨hc.2.1, hc.2.2.1, hc.2.2.2.1, hc.2.2.2.2⟩),
        if_neg (fun hc => hb ⟨hc.2.1, hc.2.2.1, hc.2.2.2.1, hc.2.2.2.2⟩),
        if_neg (fun hc => hb ⟨hc.2.1, hc.2.2.1, hc.2.2.2.1, hc.2.2.2.2⟩)]

theorem c4_erase_witness :
    (erasePixels 5 (erasePixels 5 (testImage 21 1) 0 0) 20 0).pix (3, 0) = zeroRGBA := by
  have h := c4_two_frame_erase_endpoint_discs_only 5 (by decide) (testImage 21 1) 0 0 20 0 (3, 0)
  rw [h]
  decide

/-! ## C3 — ingestion errors are recorded once but never returned by Update -/

/-- C3 (code bug): the first recorded ingestion error is kept (later writes
are dropped, and a write into an empty slot sticks) and `handleErrors`
returns it — but `(*Game).Update` discards the result of its bare
`g.handleErrors()` call and unconditionally returns nil, so the recorded
error never reaches the host and the session is not stopped. -/
theorem c3_update_swallows_recorded_error (g : Game) (e : String) (h : g.err = some e) :
    handleErrors g = some e ∧
    updateReturnedError g = none ∧
    (∀ e2, (storeError g e2).err = some e) ∧
    (∀ g2 e1, g2.err = none → (storeError g2 e1).err = some e1) := by
  refine ⟨h, rfl, ?_, ?_⟩
  · intro e2
    unfold storeError
    rw [h]
    simp
    exact h
  · intro g2 e1 h2
    unfold storeError
    rw [if_pos h2]

theorem c3_update_witness :
    handleErrors { baseGame [] with err := some "walk failed" } = some "walk failed" ∧
    updateReturnedError { baseGame [] with err := some "walk failed" } = none := by
  have h := c3_update_swallows_recorded_error
    { baseGame [] with err := some "walk failed" } "walk failed" rfl
  exact ⟨h.1, h.2.1⟩

/-! ## C10 — hotkeys dispatch without a selection and go out of bounds -/

/-- C10: on a state with an empty collection and nothing selected, each of
the five hotkey dispatches (E/F/R/D/C) invokes its bound action with the
stale `selectedIndex` and panics on the unguarded index/slice of the empty
visage list (`none`); a fresh key-down edge performs exactly that dispatch.
By contrast, the left-mouse path on the same state completes without
invoking any action. -/
theorem c10_hotkey_dispatch_unguarded :
    (baseGame []).selected = false ∧
    hotkeyDispatch .E (baseGame []) = none ∧
    hotkeyDispatch .F (baseGame []) = none ∧
    hotkeyDispatch .R (baseGame []) = none ∧
    hotkeyDispatch .D (baseGame []) = none ∧
    hotkeyDispatch .C (baseGame []) = none ∧
    handleKeybindsKey .E true false (baseGame []) = (none, true) ∧
    handleLeftMouseButton (baseGame []) 0 0 = some (baseGame []) := by
  exact ⟨rfl, rfl, rfl, rfl, rfl, rfl, rfl, rfl⟩

/-! ## C1 — resize clamps to w,h ≥ 1 every frame; release never flips -/

theorem clampMinH_clampMinW_w (v : Visage) : 1 ≤ (clampMinH (clampMinW v)).w := by
  unfold clampMinH clampMinW
  split_ifs <;> simp_all

theorem clampMinH_clampMinW_h (v : Visage) : 1 ≤ (clampMinH (clampMinW v)).h := by
  unfold clampMinH clampMinW
  split_ifs <;> simp_all

theorem clampMinH_clampMinW_image (v : Visage) :
    (clampMinH (clampMinW v)).image = v.image := by
  unfold clampMinH clampMinW
  split_ifs <;> rfl

theorem resizeGeom_image (handle : Nat) (v : Visage) (x y : Int) :
    (resizeGeom handle v x y).image = v.image := by
  unfold resizeGeom
  split_ifs <;> rfl

/-- The state used to exercise a resize below the visage's origin. -/
def c1State : Game :=
  { baseGame [testVisage 0 0 10 10] with
    selected := true, resizing := true, resizeHandle := handleBottomRight }

/-- C1 counterexample: with the bottom-right handle active on a visage at
`(0,0)` of size `10×10`, a resize frame with the pointer at `(-5, 5)` would
make `w = -5` under the claim's "negative `w` is permitted as transient
state"; the code instead clamps it to `w = 1` within the same frame (and
leaves `x` at 0), so negative sizes never exist even transiently and the
release-time flip the claim describes can never fire. -/
theorem c1_counterexample :
    (resizeSelectedVisage c1State (-5) 5).map (fun g' => g'.visages.map Visage.w) =
      some [1] ∧
    (resizeSelectedVisage c1State (-5) 5).map (fun g' => g'.visages.map Visage.x) =
      some [0] := by
  exact ⟨rfl, rfl⟩

/-- C1 amended: every resize frame stores a visage with `w ≥ 1` and `h ≥ 1`
(negative or zero sizes never occur, even while the button is held) and an
unchanged surface; gesture release (`resetActions`) only clears gesture
flags, so no flip is ever applied. -/
theorem c1_resize_clamps_and_release_never_flips (g : Game) (x y : Int) (g' : Game)
    (h : resizeSelectedVisage g x y = some g') :
    (∃ v v', g.visages[g.selectedIndex]? = some v ∧
       g'.visages = g.visages.set g.selectedIndex v' ∧
       1 ≤ v'.w ∧ 1 ≤ v'.h ∧ v'.image = v.image) ∧
    (resetActions g').visages = g'.visages := by
  refine ⟨?_, rfl⟩
  unfold resizeSelectedVisage at h
  cases hv : g.visages[g.selectedIndex]? with
  | none => rw [hv] at h; exact absurd h (by simp)
  | some v =>
    rw [hv] at h
    injection h with h2
    refine ⟨v, clampMinH (clampMinW (resizeGeom g.resizeHandle v x y)), rfl, ?_, ?_, ?_, ?_⟩
    · rw [← h2]
    · exact clampMinH_clampMinW_w _
    · exact clampMinH_clampMinW_h _
    · rw [clampMinH_clampMinW_image, resizeGeom_image]

theorem c1_resize_witness :
    ∃ v v', c1State.visages[c1State.selectedIndex]? = some v ∧
      ((resizeSelectedVisage c1State (-5) 5).getD (baseGame [])).visages =
        c1State.visages.set c1State.selectedIndex v' ∧
      1 ≤ v'.w ∧ 1 ≤ v'.h ∧ v'.image = v.image := by
  have h := c1_resize_clamps_and_release_never_flips c1State (-5) 5
    ((resizeSelectedVisage c1State (-5) 5).getD (baseGame [])) rfl
  exact h.1

/-! ## C2 — delete always clears the selection -/

/-- Two overlapping visages, back-most selected. -/
def c2State : Game :=
  { baseGame [testVisage 0 0 10 10, testVisage 3 3 10 10] with
    selected := true, selectedIndex := 0 }

/-- C2 counterexample: deleting one of two visages.  The claim requires the
new front-most element (index `length-1 = 0` of the remaining singleton) to
become the selection; the code instead sets `selected = false`
unconditionally, so nothing is selected after the delete. -/
theorem c2_counterexample :
    (deleteAction 0 c2State).map Game.selected = some false ∧
    (deleteAction 0 c2State).map (fun g' => g'.visages.length) = some 1 := by
  exact ⟨rfl, rfl⟩

/-- C2 amended: the delete action removes the element at the given index
and, regardless of the collection's size, unconditionally clears the
selection (`selected = false`, `selectedIndex = 0`) and forces the erase
tool off. -/
theorem c2_delete_always_clears_selection (i : Nat) (g g' : Game)
    (h : deleteAction i g = some g') :
    i < g.visages.length ∧
    g'.visages = g.visages.take i ++ g.visages.drop (i + 1) ∧
    g'.visages.length = g.visages.length - 1 ∧
    g'.selected = false ∧ g'.selectedIndex = 0 ∧ g'.erasing = false := by
  unfold deleteAction at h
  split_ifs at h with hlen
  injection h with h2
  subst h2
  refine ⟨by omega, rfl, ?_, rfl, rfl, rfl⟩
  simp only [List.length_append, List.length_take, List.length_drop]
  omega

theorem c2_delete_witness :
    0 < c2State.visages.length ∧
    ((deleteAction 0 c2State).getD (baseGame [])).selected = false ∧
    ((deleteAction 0 c2State).getD (baseGame [])).erasing = false := by
  have h := c2_delete_always_clears_selection 0 c2State
    ((deleteAction 0 c2State).getD (baseGame [])) rfl
  exact ⟨h.1, h.2.2.2.1, h.2.2.2.2.2⟩

/-! ## C7 — the reorder action is not blocked by the erase tool -/

/-- Two visages, erase tool on, back-most selected. -/
def c7State : Game :=
  { baseGame [testVisage 0 0 10 10, testVisage 30 30 10 10] with
    selected := true, selectedIndex := 0, erasing := true }

/-- C7 counterexample: with the erase tool active, a fresh E-hotkey press
dispatches the reorder action, which moves the selected back-most visage to
the front (`selectedIndex` becomes 1 and the list order changes) — not the
no-op the claim requires. -/
theorem c7_counterexample :
    c7State.erasing = true ∧
    (handleKeybindsKey .E true false c7State).1.map Game.selectedIndex = some 1 ∧
    (handleKeybindsKey .E true false c7State).1.map
      (fun g' => g'.visages.map Visage.x) = some [30, 0] := by
  exact ⟨rfl, rfl, rfl⟩

/-- C7 amended: the reorder action's reading of the state is oblivious to
the erase tool: its resulting visage order and `selectedIndex` (and whether
it panics) are identical whatever `erasing` holds. -/
theorem c7_reorder_ignores_erase_tool (g : Game) (b : Bool) :
    (moveAction g.selectedIndex { g with erasing := b }).map Game.visages =
      (moveAction g.selectedIndex g).map Game.visages ∧
    (moveAction g.selectedIndex { g with erasing := b }).map Game.selectedIndex =
      (moveAction g.selectedIndex g).map Game.selectedIndex := by
  cases hv : g.visages[g.selectedIndex]? with
  | none => simp [moveAction, hv]
  | some v =>
    simp only [moveAction, hv]
    split_ifs <;> simp

/-! ## C6 — hit-testing is front-to-back; a miss deselects -/

theorem containsAt_true_lt {vs : List Visage} {i : Nat} {x y : Int}
    (h : containsAt vs i x y = true) : i < vs.length := by
  unfold containsAt at h
  rcases Nat.lt_or_ge i vs.length with hlt | hge
  · exact hlt
  · rw [List.getElem?_eq_none hge] at h
    cases h

theorem hitFrom_some_iff (vs : List Visage) (x y : Int) (i k : Nat) :
    hitFrom vs x y i = some k ↔
      (k ≤ i ∧ containsAt vs k x y = true ∧
        ∀ j, k < j → j ≤ i → containsAt vs j x y = false) := by
  induction i with
  | zero =>
    rw [hitFrom]
    by_cases hc : containsAt vs 0 x y = true
    · rw [if_pos hc]
      constructor
      · intro h
        injection h with h
        subst h
        exact ⟨Nat.le_refl _, hc, fun j hj hj' => absurd hj (by omega)⟩
      · rintro ⟨hk, hck, -⟩
        have hk0 : k = 0 := by omega
        subst hk0
        rfl
    · rw [if_neg hc]
      constructor
      · intro h
        cases h
      · rintro ⟨hk, hck, -⟩
        have hk0 : k = 0 := by omega
        subst hk0
        exact absurd hck hc
  | succ n ih =>
    rw [hitFrom]
    by_cases hc : containsAt vs (n + 1) x y = true
    · rw [if_pos hc]
      constructor
      · intro h
        injection h with h
        subst h
        exact ⟨Nat.le_refl _, hc, fun j hj hj' => absurd hj (by omega)⟩
      · rintro ⟨hk, hck, hmax⟩
        rcases Nat.eq_or_lt_of_le hk with heq | hklt
        · rw [heq]
        · exact absurd hc (by rw [hmax (n + 1) hklt (Nat.le_refl _)]; simp)
    · rw [if_neg hc]
      rw [ih]
      constructor
      · rintro ⟨hk, hck, hmax⟩
        refine ⟨by omega, hck, fun j hj hj' => ?_⟩
        rcases Nat.eq_or_lt_of_le hj' with heq | hjlt
        · rw [heq]
          exact Bool.eq_false_iff.mpr hc
        · exact hmax j hj (by omega)
      · rintro ⟨hk, hck, hmax⟩
        have hkn : k ≤ n := by
          rcases Nat.eq_or_lt_of_le hk with heq | h
          · rw [heq] at hck
            exact absurd hck hc
          · omega
        exact ⟨hkn, hck, fun j hj hj' => hmax j hj (by omega)⟩

theorem hitFrom_none_iff (vs : List Visage) (x y : Int) (i : Nat) :
    hitFrom vs x y i = none ↔ ∀ j, j ≤ i → containsAt vs j x y = false := by
  induction i with
  | zero =>
    rw [hitFrom]
    by_cases hc : containsAt vs 0 x y = true
    · rw [if_pos hc]
      constructor
      · intro h
        cases h
      · intro hall
        exact absurd hc (by rw [hall 0 (Nat.le_refl _)]; simp)
    · rw [if_neg hc]
      constructor
      · intro _ j hj
        have hj0 : j = 0 := by omega
        rw [hj0]
        exact Bool.eq_false_iff.mpr hc
      · intro _
        rfl
  | succ n ih =>
    rw [hitFrom]
    by_cases hc : containsAt vs (n + 1) x y = true
    · rw [if_pos hc]
      constructor
      · intro h
        cases h
      · intro hall
        exact absurd hc (by rw [hall (n + 1) (Nat.le_refl _)]; simp)
    · rw [if_neg hc, ih]
      constructor
      · intro hall j hj
        rcases Nat.eq_or_lt_of_le hj with heq | hjlt
        · rw [heq]
          exact Bool.eq_false_iff.mpr hc
        · exact hall j (by omega)
      · intro hall j hj
        exact hall j (by omega)

/-- C6: the hit-test of `checkVisageDrag` scans from the front-most (last
index) towards the back; when some rectangle contains the point, the
selected index is a valid index whose rectangle contains the point, and no
visage later in z-order contains it (front wins every tie); when no
rectangle contains the point, the selection is cleared. -/
theorem c6_hit_test_front_to_back (g : Game) (x y : Int) (hd : g.dragging = false) :
    ((∃ i, i < g.visages.length ∧ containsAt g.visages i x y = true) →
       (checkVisageDrag g x y).selected = true ∧
       (checkVisageDrag g x y).selectedIndex < g.visages.length ∧
       containsAt g.visages (checkVisageDrag g x y).selectedIndex x y = true ∧
       (∀ j, (checkVisageDrag g x y).selectedIndex < j → j < g.visages.length →
          containsAt g.visages j x y = false)) ∧
    ((∀ i, i < g.visages.length → containsAt g.visages i x y = false) →
       (checkVisageDrag g x y).selected = false) := by
  unfold checkVisageDrag hitIndex
  by_cases hlen : g.visages.length = 0
  · rw [if_pos hlen]
    constructor
    · rintro ⟨i, hi, -⟩
      omega
    · intro _
      simp [hd]
  · rw [if_neg hlen]
    cases hh : hitFrom g.visages x y (g.visages.length - 1) with
    | some k =>
      obtain ⟨hk, hck, hmax⟩ := (hitFrom_some_iff g.visages x y _ k).mp hh
      constructor
      · intro _
        refine ⟨rfl, by simpa using Nat.lt_of_le_of_lt hk (by omega), ?_, ?_⟩
        · simpa using hck
        · intro j hj hjlen
          exact hmax j (by simpa using hj) (by omega)
      · intro hnone
        exact absurd hck (by rw [hnone k (by omega)]; simp)
    | none =>
      have hall := (hitFrom_none_iff g.visages x y _).mp hh
      constructor
      · rintro ⟨i, hi, hci⟩
        exact absurd hci (by rw [hall i (by omega)]; simp)
      · intro _
        simp [hd]

/-- Two overlapping visages both containing the probe point `(5,5)`. -/
def c6State : Game := baseGame [testVisage 0 0 10 10, testVisage 3 3 10 10]

theorem c6_hit_witness :
    (checkVisageDrag c6State 5 5).selected = true ∧
    (checkVisageDrag c6State 5 5).selectedIndex = 1 := by
  have h := (c6_hit_test_front_to_back c6State 5 5 rfl).1 ⟨0, by decide, by decide⟩
  exact ⟨h.1, by decide⟩

/-! ## C8 — every operation preserves the selection invariant -/

theorem getElem?_some_lt {α : Type} {l : List α} {i : Nat} {a : α}
    (h : l[i]? = some a) : i < l.length := by
  rcases Nat.lt_or_ge i l.length with hlt | hge
  · exact hlt
  · rw [List.getElem?_eq_none hge] at h
    cases h

theorem getElem?_some_mem {α : Type} {l : List α} {i : Nat} {a : α}
    (h : l[i]? = some a) : a ∈ l := by
  have hlt := getElem?_some_lt h
  rw [List.getElem?_eq_getElem hlt] at h
  injection h with h
  rw [← h]
  exact List.getElem_mem hlt

theorem hitIndex_some_lt {vs : List Visage} {x y : Int} {i : Nat}
    (h : hitIndex vs x y = some i) : i < vs.length := by
  unfold hitIndex at h
  split_ifs at h with hlen
  obtain ⟨-, hck, -⟩ := (hitFrom_some_iff vs x y _ i).mp h
  exact containsAt_true_lt hck

theorem eraseSliderStep_selected (g : Game) (v : Visage) (x y : Int) :
    (eraseSliderStep g v x y).selected = g.selected := by
  simp only [eraseSliderStep, updateSliderValue]
  split_ifs <;> rfl

theorem eraseSliderStep_selectedIndex (g : Game) (v : Visage) (x y : Int) :
    (eraseSliderStep g v x y).selectedIndex = g.selectedIndex := by
  simp only [eraseSliderStep, updateSliderValue]
  split_ifs <;> rfl

theorem eraseSliderStep_visages (g : Game) (v : Visage) (x y : Int) :
    (eraseSliderStep g v x y).visages = g.visages := by
  simp only [eraseSliderStep, updateSliderValue]
  split_ifs <;> rfl

/-- C8: every operation of the interactive loop — hit-test selection, drag,
resize, pan, erase, each of the six command actions, gesture release, the
asynchronous append of a decoded visage, and the error-slot write —
preserves the invariant `selected ⇒ selectedIndex < length` (whenever it
completes without a Go panic). -/
theorem c8_ops_preserve_selection_invariant (op : Op) (g g' : Game)
    (hinv : selInv g) (h : applyOp op g = some g') : selInv g' := by
  cases op with
  | hit x y =>
    injection h with h
    subst h
    unfold checkVisageDrag
    cases hh : hitIndex g.visages x y with
    | some i =>
      intro _
      exact hitIndex_some_lt hh
    | none =>
      by_cases hdrag : g.dragging = true
      · rw [if_pos hdrag]
        exact hinv
      · rw [if_neg hdrag]
        intro hsel
        cases hsel
  | drag x y =>
    replace h : dragSelectedVisage g x y = some g' := h
    unfold dragSelectedVisage at h
    cases hv : g.visages[g.selectedIndex]? with
    | none => rw [hv] at h; cases h
    | some v =>
      rw [hv] at h
      injection h with h
      subst h
      intro hsel
      rw [List.length_set]
      exact hinv hsel
  | resize x y =>
    replace h : resizeSelectedVisage g x y = some g' := h
    unfold resizeSelectedVisage at h
    cases hv : g.visages[g.selectedIndex]? with
    | none => rw [hv] at h; cases h
    | some v =>
      rw [hv] at h
      injection h with h
      subst h
      intro hsel
      rw [List.length_set]
      exact hinv hsel
  | pan x y =>
    injection h with h
    subst h
    unfold handlePanning
    split_ifs
    · exact hinv
    · intro hsel
      rw [List.length_map]
      exact hinv hsel
  | eraseAt x y =>
    replace h : handleErasing g x y = some g' := h
    unfold handleErasing at h
    cases hv : g.visages[g.selectedIndex]? with
    | none => rw [hv] at h; cases h
    | some v =>
      rw [hv] at h
      injection h with h
      subst h
      intro hsel
      rw [List.length_set, eraseSliderStep_visages]
      rw [eraseSliderStep_selectedIndex]
      apply hinv
      rw [← eraseSliderStep_selected g v x y]
      exact hsel
  | act i =>
    rcases i with _ | _ | _ | _ | _ | _ | i
    · -- moveAction
      replace h : moveAction g.selectedIndex g = some g' := h
      unfold moveAction at h
      cases hv : g.visages[g.selectedIndex]? with
      | none => rw [hv] at h; cases h
      | some v =>
        rw [hv] at h
        split_ifs at h with h1 h2
        · injection h with h
          subst h
          intro _
          simp
        · injection h with h
          subst h
          intro _
          dsimp only
          simp only [List.length_append, List.length_take, List.length_drop,
            List.length_cons, List.length_nil]
          omega
    · -- flipAction
      replace h : flipAction g.selectedIndex g = some g' := h
      unfold flipAction at h
      cases hv : g.visages[g.selectedIndex]? with
      | none => rw [hv] at h; cases h
      | some v =>
        rw [hv] at h
        injection h with h
        subst h
        intro hsel
        rw [List.length_set]
        exact hinv hsel
    · -- rotateAction
      replace h : rotateAction g.selectedIndex g = some g' := h
      unfold rotateAction at h
      cases hv : g.visages[g.selectedIndex]? with
      | none => rw [hv] at h; cases h
      | some v =>
        rw [hv] at h
        injection h with h
        subst h
        intro hsel
        rw [List.length_set]
        exact hinv hsel
    · -- deleteAction
      replace h : deleteAction g.selectedIndex g = some g' := h
      unfold deleteAction at h
      split_ifs at h
      injection h with h
      subst h
      intro hsel
      cases hsel
    · -- copyAction
      replace h : copyAction g.selectedIndex g = some g' := h
      unfold copyAction at h
      cases hv : g.visages[g.selectedIndex]? with
      | none => rw [hv] at h; cases h
      | some v =>
        rw [hv] at h
        injection h with h
        subst h
        intro _
        simp
    · -- eraseToggleAction
      replace h : eraseToggleAction g.selectedIndex g = some g' := h
      unfold eraseToggleAction at h
      injection h with h
      subst h
      exact hinv
    · -- out-of-range button index: Go would panic
      replace h : (none : Option Game) = some g' := h
      cases h
  | release =>
    injection h with h
    subst h
    exact hinv
  | ingest img =>
    injection h with h
    subst h
    intro hsel
    unfold appendDecoded
    simp only [List.length_append, List.length_cons, List.length_nil]
    have := hinv hsel
    omega
  | recordError e =>
    injection h with h
    subst h
    unfold storeError
    split_ifs
    · exact hinv
    · exact hinv

theorem c8_ops_witness :
    selInv ((applyOp (.act 3) { baseGame [testVisage 0 0 10 10] with
      selected := true, selectedIndex := 0 }).getD (baseGame [])) := by
  have h := c8_ops_preserve_selection_invariant (.act 3)
    { baseGame [testVisage 0 0 10 10] with selected := true, selectedIndex := 0 }
    ((applyOp (.act 3) { baseGame [testVisage 0 0 10 10] with
      selected := true, selectedIndex := 0 }).getD (baseGame []))
    (by decide) rfl
  exact h

/-! ## C9 — the erase mapping never divides by zero -/

theorem visOK_set {l : List Visage} {i : Nat} {v' : Visage}
    (hl : ∀ v ∈ l, visOK v) (hv' : visOK v') : ∀ v ∈ l.set i v', visOK v := by
  intro v hm
  rcases List.mem_or_eq_of_mem_set hm with hmem | heq
  · exact hl v hmem
  · rw [heq]
    exact hv'

/-- C9: (i) every operation preserves the size invariant — each visage in
the collection keeps `w ≥ 1`, `h ≥ 1` and positive surface bounds (each
PNG-decoded ingest has positive bounds, the resize clamp restores `w,h ≥ 1`
every frame, and rotation adopts the positive surface bounds) — and
(ii) under that invariant, whenever `handleErasing` runs (which is the only
place `getPixelCoordinates` divides by the selected visage's `w` and `h`),
the divisors are nonzero and the erase step itself cannot panic. -/
theorem c9_erase_mapping_divisors_nonzero :
    (∀ op g g', opOK op → sizeInv g → applyOp op g = some g' → sizeInv g') ∧
    (∀ g x y, sizeInv g → ∀ v, g.visages[g.selectedIndex]? = some v →
       v.w ≠ 0 ∧ v.h ≠ 0 ∧ handleErasing g x y ≠ none) := by
  constructor
  · intro op g g' hok hs h
    cases op with
    | hit x y =>
      injection h with h
      subst h
      unfold checkVisageDrag
      cases hh : hitIndex g.visages x y with
      | some i => exact hs
      | none =>
        by_cases hdrag : g.dragging = true
        · rw [if_pos hdrag]
          exact hs
        · rw [if_neg hdrag]
          exact hs
    | drag x y =>
      replace h : dragSelectedVisage g x y = some g' := h
      unfold dragSelectedVisage at h
      cases hv : g.visages[g.selectedIndex]? with
      | none => rw [hv] at h; cases h
      | some v =>
        rw [hv] at h
        injection h with h
        subst h
        exact visOK_set hs (hs v (getElem?_some_mem hv))
    | resize x y =>
      replace h : resizeSelectedVisage g x y = some g' := h
      unfold resizeSelectedVisage at h
      cases hv : g.visages[g.selectedIndex]? with
      | none => rw [hv] at h; cases h
      | some v =>
        rw [hv] at h
        injection h with h
        subst h
        refine visOK_set hs ⟨clampMinH_clampMinW_w _, clampMinH_clampMinW_h _, ?_, ?_⟩
        · rw [clampMinH_clampMinW_image, resizeGeom_image]
          exact (hs v (getElem?_some_mem hv)).2.2.1
        · rw [clampMinH_clampMinW_image, resizeGeom_image]
          exact (hs v (getElem?_some_mem hv)).2.2.2
    | pan x y =>
      injection h with h
      subst h
      unfold handlePanning
      split_ifs
      · exact hs
      · intro u hu
        obtain ⟨w, hw, heq⟩ := List.mem_map.mp hu
        rw [← heq]
        exact hs w hw
    | eraseAt x y =>
      replace h : handleErasing g x y = some g' := h
      unfold handleErasing at h
      cases hv : g.visages[g.selectedIndex]? with
      | none => rw [hv] at h; cases h
      | some v =>
        rw [hv] at h
        injection h with h
        subst h
        intro u hu
        rw [eraseSliderStep_visages] at hu
        rcases List.mem_or_eq_of_mem_set hu with hmem | heq
        · exact hs u hmem
        · rw [heq]
          obtain ⟨h1, h2, h3, h4⟩ := hs v (getElem?_some_mem hv)
          refine ⟨h1, h2, ?_, ?_⟩
          · dsimp only
            rw [erasePixels_width]
            exact h3
          · dsimp only
            rw [erasePixels_height]
            exact h4
    | act i =>
      rcases i with _ | _ | _ | _ | _ | _ | i
      · -- moveAction
        replace h : moveAction g.selectedIndex g = some g' := h
        unfold moveAction at h
        cases hv : g.visages[g.selectedIndex]? with
        | none => rw [hv] at h; cases h
        | some v =>
          rw [hv] at h
          split_ifs at h with h1 h2
          · injection h with h
            subst h
            intro u hu
            rcases List.mem_cons.mp hu with heq | hmem
            · rw [heq]
              exact hs v (getElem?_some_mem hv)
            · exact hs u (List.take_subset _ _ hmem)
          · injection h with h
            subst h
            intro u hu
            rcases List.mem_append.mp hu with hu2 | hu3
            · rcases List.mem_append.mp hu2 with hu4 | hu5
              · exact hs u (List.take_subset _ _ hu4)
              · exact hs u (List.drop_subset _ _ hu5)
            · rw [List.mem_singleton.mp hu3]
              exact hs v (getElem?_some_mem hv)
      · -- flipAction
        replace h : flipAction g.selectedIndex g = some g' := h
        unfold flipAction at h
        cases hv : g.visages[g.selectedIndex]? with
        | none => rw [hv] at h; cases h
        | some v =>
          rw [hv] at h
          injection h with h
          subst h
          exact visOK_set hs (hs v (getElem?_some_mem hv))
      · -- rotateAction
        replace h : rotateAction g.selectedIndex g = some g' := h
        unfold rotateAction at h
        cases hv : g.visages[g.selectedIndex]? with
        | none => rw [hv] at h; cases h
        | some v =>
          rw [hv] at h
          injection h with h
          subst h
          obtain ⟨h1, h2, h3, h4⟩ := hs v (getElem?_some_mem hv)
          exact visOK_set hs ⟨h4, h3, h4, h3⟩
      · -- deleteAction
        replace h : deleteAction g.selectedIndex g = some g' := h
        unfold deleteAction at h
        split_ifs at h
        injection h with h
        subst h
        intro u hu
        rcases List.mem_append.mp hu with hu1 | hu2
        · exact hs u (List.take_subset _ _ hu1)
        · exact hs u (List.drop_subset _ _ hu2)
      · -- copyAction
        replace h : copyAction g.selectedIndex g = some g' := h
        unfold copyAction at h
        cases hv : g.visages[g.selectedIndex]? with
        | none => rw [hv] at h; cases h
        | some v =>
          rw [hv] at h
          injection h with h
          subst h
          intro u hu
          rcases List.mem_append.mp hu with hu1 | hu2
          · exact hs u hu1
          · rw [List.mem_singleton.mp hu2]
            exact hs v (getElem?_some_mem hv)
      · -- eraseToggleAction
        replace h : eraseToggleAction g.selectedIndex g = some g' := h
        injection h with h
        subst h
        exact hs
      · -- out-of-range button index
        replace h : (none : Option Game) = some g' := h
        cases h
    | release =>
      injection h with h
      subst h
      exact hs
    | ingest img =>
      injection h with h
      subst h
      intro u hu
      rcases List.mem_append.mp hu with hu1 | hu2
      · exact hs u hu1
      · rw [List.mem_singleton.mp hu2]
        exact ⟨hok.1, hok.2, hok.1, hok.2⟩
    | recordError e =>
      injection h with h
      subst h
      unfold storeError
      split_ifs
      · exact hs
      · exact hs
  · intro g x y hs v hv
    obtain ⟨h1, h2, -, -⟩ := hs v (getElem?_some_mem hv)
    refine ⟨by omega, by omega, ?_⟩
    unfold handleErasing
    rw [hv]
    simp

theorem c9_witness :
    sizeInv ((applyOp (.ingest (testImage 8 8)) (baseGame [])).getD (baseGame [])) ∧
    (testVisage 2 3 7 9).w ≠ 0 ∧ (testVisage 2 3 7 9).h ≠ 0 := by
  have h := c9_erase_mapping_divisors_nonzero
  constructor
  · exact h.1 (.ingest (testImage 8 8)) (baseGame []) _ ⟨by decide, by decide⟩ (by decide) rfl
  · have h2 := h.2 { baseGame [testVisage 2 3 7 9] with selected := true } 0 0
      (by decide) (testVisage 2 3 7 9) rfl
    exact ⟨h2.1, h2.2.1⟩

theorem c7_reorder_witness :
    (moveAction c7State.selectedIndex { c7State with erasing := false }).map
        Game.selectedIndex =
      (moveAction c7State.selectedIndex c7State).map Game.selectedIndex := by
  exact (c7_reorder_ignores_erase_tool c7State false).2
